import Mathlib

/-!
Verification development for the seo-mining-and-analysis extraction pipeline
(`src/etl_pipeline.py`, `src/models/data_field.py`).

The Python code is shallowly embedded: JSON values become the mutual
inductive `JValue`/`JObj`/`JArr` (objects keep key insertion order, as
Python dicts do); the HTML document is abstracted to the ordered list of
its script node texts (selectolax parsing is lenient and never fails);
file-reading outcomes become the inductive `ReadResult`; Polars frames
become `DFrame` (named, dtyped columns of cell values) and the lazy-frame
program becomes explicit `Except`-valued stages, failing exactly where
Polars resolves the plan's schema (missing column, non-struct dtype,
missing struct field, duplicate output name).
-/

namespace SeoPipeline

mutual

/-- JSON-like values, mirroring what `orjson.loads` produces.  Integral
JSON numbers become Python `int` (`.int`); numbers with a fraction or
exponent become Python `float`, whose exact decimal value is kept as a
rational (`.num`). -/
inductive JValue where
  | null : JValue
  | bool (b : Bool) : JValue
  | int (n : Int) : JValue
  | num (q : ℚ) : JValue
  | str (s : String) : JValue
  | arr (xs : JArr) : JValue
  | obj (kvs : JObj) : JValue
  deriving DecidableEq

/-- An object's ordered key/value bindings. -/
inductive JObj where
  | nil : JObj
  | cons (k : String) (v : JValue) (rest : JObj) : JObj
  deriving DecidableEq

/-- An array's elements. -/
inductive JArr where
  | nil : JArr
  | cons (v : JValue) (rest : JArr) : JArr
  deriving DecidableEq

end

def JObj.ofList : List (String × JValue) → JObj
  | [] => .nil
  | (k, v) :: rest => .cons k v (JObj.ofList rest)

def JArr.ofList : List JValue → JArr
  | [] => .nil
  | v :: rest => .cons v (JArr.ofList rest)

/-- Object literal helper. -/
def jobj (l : List (String × JValue)) : JValue := .obj (JObj.ofList l)

/-- Array literal helper. -/
def jarr (l : List JValue) : JValue := .arr (JArr.ofList l)

/-- First binding of a key (Python dicts have unique keys, so first =
only). -/
def lookupJ (k : String) : JObj → Option JValue
  | .nil => none
  | .cons k2 v rest => if k2 = k then some v else lookupJ k rest

def JObj.keys : JObj → List String
  | .nil => []
  | .cons k _ rest => k :: JObj.keys rest

def JArr.length : JArr → Nat
  | .nil => 0
  | .cons _ rest => JArr.length rest + 1

instance exceptDecEq {ε α : Type} [DecidableEq ε] [DecidableEq α] :
    DecidableEq (Except ε α) := fun a b =>
  match a, b with
  | .error e, .error f => decidable_of_iff (e = f) (by simp)
  | .error _, .ok _ => isFalse (by simp)
  | .ok _, .error _ => isFalse (by simp)
  | .ok x, .ok y => decidable_of_iff (x = y) (by simp)

/-! ## Character-level utilities used by the regex and parser models -/

def isWsChar (c : Char) : Bool :=
  c = ' ' || c = '\t' || c = '\n' || c = '\r' || c = '\x0b' || c = '\x0c'

def isDigitChar (c : Char) : Bool :=
  '0' ≤ c && c ≤ '9'

/-- If `pat` is an initial segment of `cs`, return the remainder. -/
def dropSeg : List Char → List Char → Option (List Char)
  | [], cs => some cs
  | _ :: _, [] => none
  | p :: ps, c :: cs => if p = c then dropSeg ps cs else none

/-- Whether `pat` occurs as a contiguous segment of `cs` (Python `in`). -/
def containsSeg (pat : List Char) : List Char → Bool
  | [] => (dropSeg pat []).isSome
  | c :: cs => (dropSeg pat (c :: cs)).isSome || containsSeg pat cs

/-! ## The extractor's regex

`re.search(r"window\.__APP_DATA__\s*=\s*(\x7b.*\x7d)", text)`: the pattern
has no alternation and `.` does not match a newline, so a match starting at
a given position is: the literal sentinel, then whitespace, `=`,
whitespace, then an opening brace, and the capture runs greedily to the
last closing brace on the same line.  `re.search` returns the match at the
leftmost position where the whole pattern succeeds. -/

def sentinelChars : List Char := "window.__APP_DATA__".data

/-- Index (from the start of `l`) of the last `\x7d` in `l`, if any. -/
def lastCloseIdx (l : List Char) : Option Nat :=
  (l.enum.filter (fun p => p.2 = '}')).getLast?.map (·.1)

/-- Greedy single-line capture for `(\x7b.*\x7d)` at a position where `cs`
starts with `\x7b`: up to the last `\x7d` before the next newline. -/
def captureBrace (cs : List Char) : Option (List Char) :=
  let line := cs.takeWhile (fun c => c ≠ '\n')
  match lastCloseIdx line with
  | some j => if j ≥ 1 then some (cs.take (j + 1)) else none
  | none => none

/-- Try to match the whole pattern starting exactly at the head of `cs`,
returning the capture group. -/
def matchAppAt (cs : List Char) : Option (List Char) :=
  match dropSeg sentinelChars cs with
  | none => none
  | some r1 =>
    match r1.dropWhile isWsChar with
    | '=' :: r2 =>
      let r3 := r2.dropWhile isWsChar
      match r3 with
      | '{' :: _ => captureBrace r3
      | _ => none
    | _ => none

/-- Leftmost match of the pattern anywhere in `cs` (Python `re.search`). -/
def searchApp : List Char → Option (List Char)
  | [] => matchAppAt []
  | c :: cs =>
    match matchAppAt (c :: cs) with
    | some cap => some cap
    | none => searchApp cs

/-! ## JSON parsing (`orjson.loads`)

A strict RFC 8259 recursive-descent parser.  The fuel argument bounds the
nesting depth of the recursion; every caller passes the input length plus
one, which always suffices since each descent consumes at least one
character. -/

def hexVal (c : Char) : Option Nat :=
  if '0' ≤ c ∧ c ≤ '9' then some (c.toNat - 48)
  else if 'a' ≤ c ∧ c ≤ 'f' then some (c.toNat - 87)
  else if 'A' ≤ c ∧ c ≤ 'F' then some (c.toNat - 55)
  else none

/-- Parse the body of a JSON string after the opening quote, returning the
decoded characters and the remainder after the closing quote. -/
def parseJStr : Nat → List Char → Option (List Char × List Char)
  | 0, _ => none
  | _ + 1, [] => none
  | fuel + 1, c :: cs =>
    if c = '"' then some ([], cs)
    else if c = '\\' then
      match cs with
      | 'u' :: a :: b :: d :: e :: cs2 =>
        match hexVal a, hexVal b, hexVal d, hexVal e with
        | some x, some y, some z, some w =>
          let n := ((x * 16 + y) * 16 + z) * 16 + w
          if n.isValidChar then
            (parseJStr fuel cs2).map (fun p => (Char.ofNat n :: p.1, p.2))
          else none
        | _, _, _, _ => none
      | e :: cs2 =>
        let dec : Option Char :=
          if e = '"' then some '"'
          else if e = '\\' then some '\\'
          else if e = '/' then some '/'
          else if e = 'b' then some '\x08'
          else if e = 'f' then some '\x0c'
          else if e = 'n' then some '\n'
          else if e = 'r' then some '\r'
          else if e = 't' then some '\t'
          else none
        match dec with
        | some d => (parseJStr fuel cs2).map (fun p => (d :: p.1, p.2))
        | none => none
      | [] => none
    else if c.toNat < 32 then none
    else (parseJStr fuel cs).map (fun p => (c :: p.1, p.2))

/-- Digits of a JSON integer part: `0` alone or a nonzero digit followed by
digits (strict JSON rejects leading zeros). -/
def takeIntDigits (cs : List Char) : Option (List Char × List Char) :=
  match cs with
  | '0' :: rest => some (['0'], rest)
  | c :: _ =>
    if isDigitChar c then
      some (cs.takeWhile isDigitChar, cs.dropWhile isDigitChar)
    else none
  | [] => none

def digitsVal (ds : List Char) : Nat :=
  ds.foldl (fun a c => 10 * a + (c.toNat - 48)) 0

/-- JSON whitespace accepted between tokens. -/
def skipJWs (cs : List Char) : List Char :=
  cs.dropWhile (fun c => c = ' ' || c = '\t' || c = '\n' || c = '\r')

/-- Parse a JSON number.  Integral numbers (no fraction, no exponent) give
Python ints; otherwise Python floats, represented exactly as rationals. -/
def parseJNum (cs : List Char) : Option (JValue × List Char) := do
  let (neg, cs1) :=
    match cs with
    | '-' :: r => (true, r)
    | _ => (false, cs)
  let (ip, cs2) ← takeIntDigits cs1
  let (frac, cs3) :=
    match cs2 with
    | '.' :: r =>
      let f := r.takeWhile isDigitChar
      if f = [] then (none, cs2) else (some f, r.dropWhile isDigitChar)
    | _ => (none, cs2)
  if cs3.head? = some '.' then none else
  let (ex, cs4) :=
    match cs3 with
    | e :: r =>
      if e = 'e' ∨ e = 'E' then
        let (esgn, r2) :=
          match r with
          | '+' :: r3 => (1, r3)
          | '-' :: r3 => (-1, r3)
          | _ => ((1 : Int), r)
        let ds := r2.takeWhile isDigitChar
        if ds = [] then (none, cs3)
        else (some (esgn * (digitsVal ds : Int)), r2.dropWhile isDigitChar)
      else (none, cs3)
    | [] => (none, cs3)
  if cs3 ≠ cs4 ∧ ex = none then none else
  let mag : Int := if neg then -(digitsVal ip : Int) else (digitsVal ip : Int)
  match frac, ex with
  | none, none => some (.int mag, cs4)
  | _, _ =>
    let fds := frac.getD []
    let mant : Int :=
      (if neg then -1 else 1) *
        ((digitsVal ip : Int) * (10 : Int) ^ fds.length + (digitsVal fds : Int))
    let e10 : Int := ex.getD 0 - (fds.length : Int)
    let q : ℚ :=
      if e10 ≥ 0 then mkRat (mant * (10 : Int) ^ e10.toNat) 1
      else mkRat mant ((10 : Nat) ^ (-e10).toNat)
    some (.num q, cs4)

mutual

/-- Parse one JSON value; fuel bounds nesting depth. -/
def parseJVal : Nat → List Char → Option (JValue × List Char)
  | 0, _ => none
  | fuel + 1, cs =>
    match skipJWs cs with
    | [] => none
    | c :: rest =>
      if c = '"' then (parseJStr (rest.length + 1) rest).map fun p => (.str ⟨p.1⟩, p.2)
      else if c = '{' then
        match skipJWs rest with
        | '}' :: r2 => some (.obj .nil, r2)
        | _ => (parseJMembers fuel rest).map fun p => (.obj p.1, p.2)
      else if c = '[' then
        match skipJWs rest with
        | ']' :: r2 => some (.arr .nil, r2)
        | _ => (parseJItems fuel rest).map fun p => (.arr p.1, p.2)
      else
        match dropSeg ("true".data) (c :: rest) with
        | some r2 => some (.bool true, r2)
        | none =>
          match dropSeg ("false".data) (c :: rest) with
          | some r2 => some (.bool false, r2)
          | none =>
            match dropSeg ("null".data) (c :: rest) with
            | some r2 => some (.null, r2)
            | none => parseJNum (c :: rest)

/-- Parse `"key": value` pairs separated by commas, through the closing
brace. -/
def parseJMembers : Nat → List Char → Option (JObj × List Char)
  | 0, _ => none
  | fuel + 1, cs =>
    match skipJWs cs with
    | '"' :: rest => do
      let (kcs, r1) ← parseJStr (rest.length + 1) rest
      match skipJWs r1 with
      | ':' :: r2 => do
        let (v, r3) ← parseJVal fuel r2
        match skipJWs r3 with
        | ',' :: r4 =>
          let (tail, r5) ← parseJMembers fuel r4
          some (.cons ⟨kcs⟩ v tail, r5)
        | '}' :: r4 => some (.cons ⟨kcs⟩ v .nil, r4)
        | _ => none
      | _ => none
    | _ => none

/-- Parse array items separated by commas, through the closing bracket. -/
def parseJItems : Nat → List Char → Option (JArr × List Char)
  | 0, _ => none
  | fuel + 1, cs => do
    let (v, r1) ← parseJVal fuel cs
    match skipJWs r1 with
    | ',' :: r2 =>
      let (tail, r3) ← parseJItems fuel r2
      some (.cons v tail, r3)
    | ']' :: r2 => some (.cons v .nil, r2)
    | _ => none

end

/-- `orjson.loads`: a complete JSON document, nothing but whitespace after
the value. -/
def parseJson (cs : List Char) : Option JValue :=
  match parseJVal (cs.length + 1) cs with
  | some (v, rest) => if skipJWs rest = [] then some v else none
  | none => none

/-! ## The extractor (`extract`, etl_pipeline.py lines 58-87)

A document is abstracted to the ordered list of its `<script>` node texts
(`tree.css("script")` in document order).  Reading the file is abstracted
to `ReadResult`: the `except` clause catches exactly `FileNotFoundError`,
`UnicodeDecodeError` and `orjson.JSONDecodeError`; any other exception
(e.g. `PermissionError` from `read_text`) is uncaught, which the embedding
renders as `Except.error`. -/

inductive LogLev where
  | warnLog : LogLev
  | errLog : LogLev
  deriving DecidableEq

/-- What one call to `extract` produced: the returned value (`None` becomes
`none`) and the log record it emitted, if any. -/
structure ExtractOut where
  result : Option JValue
  log : Option LogLev
  deriving DecidableEq

inductive ReadResult where
  | readOk (scripts : List String) : ReadResult
  | notFound : ReadResult
  | undecodable : ReadResult
  | otherError : ReadResult
  deriving DecidableEq

def containsSentinel (t : String) : Bool :=
  containsSeg sentinelChars t.data

/-- The `for node in tree.css("script")` loop: skip empty or sentinel-free
texts; at the first text where the regex matches, parse the capture (a
parse failure raises `JSONDecodeError`, caught by the enclosing `except`,
which logs an error); a sentinel-bearing text where the regex does not
match falls through to the next node; if the loop ends, log a warning. -/
def extractDoc : List String → ExtractOut
  | [] => ⟨none, some .warnLog⟩
  | t :: ts =>
    if t ≠ "" ∧ containsSentinel t then
      match searchApp t.data with
      | some cap =>
        match parseJson cap with
        | some v => ⟨some v, none⟩
        | none => ⟨none, some .errLog⟩
      | none => extractDoc ts
    else extractDoc ts

def extract : ReadResult → Except Unit ExtractOut
  | .readOk scripts => .ok (extractDoc scripts)
  | .notFound => .ok ⟨none, some .errLog⟩
  | .undecodable => .ok ⟨none, some .errLog⟩
  | .otherError => .error ()

/-- The pipeline's extraction loop (etl_pipeline.py lines 220-223):
`raw_json_blobs.append(extract(file))`, in order, with no try/except, so an
uncaught exception aborts the whole batch. -/
def extractLoop : List ReadResult → Except Unit (List (Option JValue))
  | [] => .ok []
  | f :: fs => do
    let out ← extract f
    let rest ← extractLoop fs
    .ok (out.result :: rest)

/-! ## The schema loader (`load_extraction_config`, lines 36-55, and
`DataField`, data_field.py lines 5-15)

The configuration source is abstracted past the file system and `orjson`:
`missing` is a nonexistent file (`FileNotFoundError`), `unparsable` is
content `orjson.loads` rejects (`JSONDecodeError`), `parsed v` is content
that parsed to `v`.  `DataField(**field)` validates with pydantic:
`alias: str` with `min_length=1`, `path: list[str]` with `min_length=1`,
`extra="forbid"`; pydantic does not coerce non-strings to `str`.  A
non-object entry or a non-list document raises `TypeError` at the `**`
unpacking or the iteration, mapped to `otherErr`.  Nothing checks aliases
for duplicates. -/

structure DataField where
  «alias» : String
  path : List String
  deriving DecidableEq

inductive ConfigError where
  | notFound : ConfigError
  | parseError : ConfigError
  | validation : ConfigError
  | otherErr : ConfigError
  deriving DecidableEq

inductive ConfigSource where
  | missing : ConfigSource
  | unparsable : ConfigSource
  | parsed (v : JValue) : ConfigSource

def allStrings : JArr → Bool
  | .nil => true
  | .cons (.str _) rest => allStrings rest
  | .cons _ _ => false

def toStrList : JArr → List String
  | .nil => []
  | .cons (.str s) rest => s :: toStrList rest
  | .cons _ rest => toStrList rest

/-- The entry's `alias` value when present as a string. -/
def asStr : Option JValue → Option String
  | some (.str a) => some a
  | _ => none

/-- The entry's `path` value when present as a list. -/
def asArr : Option JValue → Option JArr
  | some (.arr ps) => some ps
  | _ => none

/-- Pydantic validation of one config entry: `alias` must be a string,
`path` a list; `min_length=1` on both, element type `str` for the path,
`extra="forbid"` on the keys. -/
def validateField : JValue → Except ConfigError DataField
  | .obj kvs =>
    match asStr (lookupJ ("alias") kvs), asArr (lookupJ ("path") kvs) with
    | some a, some ps =>
      if ((JObj.keys kvs).all fun k => k = "alias" ∨ k = "path") ∧
          a.length ≥ 1 ∧ ps.length ≥ 1 ∧ allStrings ps then
        .ok ⟨a, toStrList ps⟩
      else .error .validation
    | _, _ => .error .validation
  | _ => .error .otherErr

def validateFields : List JValue → Except ConfigError (List DataField)
  | [] => .ok []
  | e :: rest => do
    let f ← validateField e
    let fs ← validateFields rest
    .ok (f :: fs)

def jarrToList : JArr → List JValue
  | .nil => []
  | .cons v rest => v :: jarrToList rest

def load_extraction_config : ConfigSource → Except ConfigError (List DataField)
  | .missing => .error .notFound
  | .unparsable => .error .parseError
  | .parsed (.arr entries) => validateFields (jarrToList entries)
  | .parsed _ => .error .otherErr

/-! ## The Polars model

`stage_1_polars_transform` builds `pl.LazyFrame(raw_data, strict=False)`
from the list of extraction results, selects one expression per schema
field rooted at `pl.col("layout").struct.field("data")`, derives the two
normalized columns, JSON-serializes columns of `List`/`Struct` dtype, and
collects.  The embedding makes the lazy plan's schema resolution explicit:
`pl.col` on an absent column is `ColumnNotFoundError`, `.struct.field` on a
non-struct dtype is a schema error and on a struct dtype without the field
is `StructFieldNotFoundError`, duplicate output names in `select` are
`DuplicateError` — all raised when the plan is resolved, i.e. before any
row is produced.  Column dtypes are inferred as the supertype of the
per-row value dtypes, structs merging field-by-field (the union of keys
seen across rows, as Polars' dict schema inference does). -/

mutual

inductive PType where
  | tnull : PType
  | tbool : PType
  | tint : PType
  | tfloat : PType
  | tstr : PType
  | tlist : PType
  | tstruct (fields : PFields) : PType
  deriving DecidableEq

/-- Ordered named fields of a struct dtype. -/
inductive PFields where
  | nil : PFields
  | cons (k : String) (t : PType) (rest : PFields) : PFields
  deriving DecidableEq

end

def lookupT (k : String) : PFields → Option PType
  | .nil => none
  | .cons k2 t rest => if k2 = k then some t else lookupT k rest

def PFields.append : PFields → PFields → PFields
  | .nil, gs => gs
  | .cons k t rest, gs => .cons k t (PFields.append rest gs)

/-- The fields of `gs` whose keys are not among `ks`. -/
def filterNewFields (ks : List String) : PFields → PFields
  | .nil => .nil
  | .cons k t rest =>
    if ks.contains k then filterNewFields ks rest
    else .cons k t (filterNewFields ks rest)

def PFields.keys : PFields → List String
  | .nil => []
  | .cons k _ rest => k :: PFields.keys rest

mutual

/-- Dtype of a single value, as Polars infers it from Python data. -/
def inferType : JValue → PType
  | .null => .tnull
  | .bool _ => .tbool
  | .int _ => .tint
  | .num _ => .tfloat
  | .str _ => .tstr
  | .arr _ => .tlist
  | .obj kvs => .tstruct (inferFields kvs)

def inferFields : JObj → PFields
  | .nil => .nil
  | .cons k v rest => .cons k (inferType v) (inferFields rest)

end

mutual

/-- Supertype of two dtypes: `Null` is below everything, `Int64` and
`Float64` join to `Float64`, structs merge their field lists key by key
(fields of the left first, then the new fields of the right); `none` when
no supertype exists. -/
def psuper : PType → PType → Option PType
  | .tnull, t => some t
  | .tbool, .tbool => some .tbool
  | .tbool, .tnull => some .tbool
  | .tint, .tint => some .tint
  | .tint, .tfloat => some .tfloat
  | .tint, .tnull => some .tint
  | .tfloat, .tfloat => some .tfloat
  | .tfloat, .tint => some .tfloat
  | .tfloat, .tnull => some .tfloat
  | .tstr, .tstr => some .tstr
  | .tstr, .tnull => some .tstr
  | .tlist, .tlist => some .tlist
  | .tlist, .tnull => some .tlist
  | .tstruct fs, .tstruct gs =>
    (mergeFields fs gs).map
      (fun merged => .tstruct (merged.append (filterNewFields (PFields.keys fs) gs)))
  | .tstruct fs, .tnull => some (.tstruct fs)
  | _, _ => none

/-- Key-by-key merge of the left struct's fields with the right struct's. -/
def mergeFields : PFields → PFields → Option PFields
  | .nil, _ => some .nil
  | .cons k t rest, gs =>
    match lookupT k gs with
    | some u => do
      let t2 ← psuper t u
      let r2 ← mergeFields rest gs
      some (.cons k t2 r2)
    | none => do
      let r2 ← mergeFields rest gs
      some (.cons k t r2)

end

/-- One column of a collected frame: its name, resolved dtype and one cell
per row. -/
structure PCol where
  name : String
  dtype : PType
  values : List JValue
  deriving DecidableEq

structure DFrame where
  cols : List PCol
  deriving DecidableEq

inductive PError where
  | colNotFound : PError
  | schemaErr : PError
  | structFieldNotFound : PError
  | duplicateCol : PError
  | constructErr : PError
  deriving DecidableEq

def emapM {α β : Type} (f : α → Except PError β) : List α → Except PError (List β)
  | [] => .ok []
  | a :: rest => do
    let b ← f a
    let bs ← emapM f rest
    .ok (b :: bs)

/-- One element of `raw_data` as a frame row: `None` or the dict itself. -/
def toRow : Option JValue → Except PError (Option JObj)
  | none => .ok none
  | some (.obj kvs) => .ok (some kvs)
  | some _ => .error .constructErr

def addKeys (acc : List String) : List String → List String
  | [] => acc
  | k :: ks => if acc.contains k then addKeys acc ks else addKeys (acc ++ [k]) ks

/-- Column names of the frame: keys in order of first appearance across the
row dicts, `None` rows contributing nothing. -/
def colKeys (rows : List (Option JObj)) : List String :=
  rows.foldl (fun acc r => addKeys acc ((r.getD .nil).keys)) []

/-- The cell a row contributes to column `k`: `None` rows and absent keys
give null. -/
def cellOf (k : String) (r : Option JObj) : JValue :=
  match r with
  | none => .null
  | some kvs => (lookupJ k kvs).getD .null

def colDtype (vals : List JValue) : Option PType :=
  vals.foldlM (fun t v => psuper t (inferType v)) .tnull

/-- `pl.LazyFrame(raw_data, strict=False)` on a list of dicts/Nones. -/
def lazyFrameOfDicts (rows : List (Option JObj)) : Except PError DFrame := do
  let cols ← emapM (fun k =>
      let vals := rows.map (cellOf k)
      match colDtype vals with
      | some t => .ok (⟨k, t, vals⟩ : PCol)
      | none => .error PError.constructErr)
    (colKeys rows)
  .ok ⟨cols⟩

/-- Per-cell effect of `.struct.field seg`: nulls stay null, objects give
the field's value or null when absent. -/
def cellField (seg : String) : JValue → JValue
  | .obj kvs => (lookupJ seg kvs).getD .null
  | _ => .null

/-- `.struct.field(seg)` on a column: requires a struct dtype carrying the
field (else the plan fails to resolve); rows are then read pointwise. -/
def structFieldCol (c : PCol) (seg : String) : Except PError PCol :=
  match c.dtype with
  | .tstruct fs =>
    match lookupT seg fs with
    | some t => .ok ⟨seg, t, c.values.map (cellField seg)⟩
    | none => .error .structFieldNotFound
  | _ => .error .schemaErr

/-- `pl.col(n)` against a resolved frame. -/
def getCol (df : DFrame) (n : String) : Except PError PCol :=
  match df.cols.find? (fun c => c.name == n) with
  | some c => .ok c
  | none => .error .colNotFound

def foldPath (c : PCol) : List String → Except PError PCol
  | [] => .ok c
  | seg :: rest => do
    let c2 ← structFieldCol c seg
    foldPath c2 rest

/-- `field.to_polars_expr(root_expr)` evaluated against the frame, with
`root_expr = pl.col("layout").struct.field("data")` (lines 104-105): walk
the path segment by segment, then `.alias(self.alias)`. -/
def to_polars_expr (df : DFrame) (fld : DataField) : Except PError PCol := do
  let c0 ← getCol df ("layout")
  let c1 ← structFieldCol c0 ("data")
  let c2 ← foldPath c1 fld.path
  .ok ⟨fld.«alias», c2.dtype, c2.values⟩

def hasDupNames : List String → Bool
  | [] => false
  | n :: rest => rest.contains n || hasDupNames rest

/-- `lf.select(selected_columns)` (line 107). -/
def selectStage (df : DFrame) (schema : List DataField) : Except PError DFrame := do
  let cols ← emapM (to_polars_expr df) schema
  if hasDupNames (cols.map (·.name)) then .error .duplicateCol
  else .ok ⟨cols⟩

/-! ## Scalar normalization (lines 107-119)

`pl.col("bounce_rate_raw").str.strip_chars("%").cast(pl.Float64,
strict=False)`: `strip_chars` removes the given characters from both ends;
the non-strict cast parses the decimal literal or yields null.  The cast's
numeric value is modelled exactly as a rational; the special spellings
inf/infinity/NaN have no rational representation and do not occur in
percentage data, so they are modelled as parse failures.

`pl.col("Avg Visit Duration").str.to_time("%H:%M:%S", strict=False)`:
chrono reads one or two digits per numeric item, a time of day needs hours
0-23 and minutes/seconds 0-59, and the whole string must be consumed;
failures yield null, which propagates through the hour/minute/second
arithmetic. -/

def stripPct (cs : List Char) : List Char :=
  ((cs.dropWhile (· = '%')).reverse.dropWhile (· = '%')).reverse

/-- Parse a decimal floating-point literal (Rust `f64::from_str` grammar:
optional sign, then `digits`, `digits.digits*` or `.digits`, then an
optional exponent), consuming the whole input. -/
def parseFloatQ (cs : List Char) : Option ℚ :=
  let (neg, cs1) :=
    match cs with
    | '+' :: r => (false, r)
    | '-' :: r => (true, r)
    | _ => (false, cs)
  let ip := cs1.takeWhile isDigitChar
  let cs2 := cs1.dropWhile isDigitChar
  let hasDot := cs2.head? = some '.'
  let (fp, cs3) :=
    match cs2 with
    | '.' :: r => (r.takeWhile isDigitChar, r.dropWhile isDigitChar)
    | _ => ([], cs2)
  let (expOk, e, cs4) :=
    match cs3 with
    | c :: r =>
      if c = 'e' ∨ c = 'E' then
        let (esgn, r2) :=
          match r with
          | '+' :: r3 => ((1 : Int), r3)
          | '-' :: r3 => (-1, r3)
          | _ => ((1 : Int), r)
        let ds := r2.takeWhile isDigitChar
        if ds = [] then (false, (0 : Int), cs3)
        else (true, esgn * (digitsVal ds : Int), r2.dropWhile isDigitChar)
      else (true, (0 : Int), cs3)
    | [] => (true, (0 : Int), [])
  if (ip ≠ [] ∨ (hasDot ∧ fp ≠ [])) ∧ expOk ∧ cs4 = [] then
    let mant : Int :=
      (if neg then -1 else 1) *
        ((digitsVal ip : Int) * (10 : Int) ^ fp.length + (digitsVal fp : Int))
    some (if e ≥ 0 then mkRat (mant * (10 : Int) ^ e.toNat) ((10 : Nat) ^ fp.length)
          else mkRat mant ((10 : Nat) ^ fp.length * (10 : Nat) ^ (-e).toNat))
  else none

/-- Per-cell effect of the Bounce Rate expression on a String-dtype column. -/
def bounceCell : JValue → JValue
  | .str s =>
    match parseFloatQ (stripPct s.data) with
    | some q => .num q
    | none => .null
  | _ => .null

/-- Read one or two digits greedily (chrono numeric parsing). -/
def take2dig : List Char → Option (Nat × List Char)
  | [] => none
  | c :: cs =>
    if isDigitChar c then
      match cs with
      | c2 :: cs2 =>
        if isDigitChar c2 then some (10 * (c.toNat - 48) + (c2.toNat - 48), cs2)
        else some (c.toNat - 48, cs)
      | [] => some (c.toNat - 48, [])
    else none

/-- `%H:%M:%S` over the whole string, with components in time-of-day
range. -/
def parseHMS (cs : List Char) : Option (Nat × Nat × Nat) := do
  let (h, r1) ← take2dig cs
  match r1 with
  | ':' :: r2 => do
    let (m, r3) ← take2dig r2
    match r3 with
    | ':' :: r4 => do
      let (s, r5) ← take2dig r4
      if r5 = [] ∧ h ≤ 23 ∧ m ≤ 59 ∧ s ≤ 59 then some (h, m, s) else none
    | _ => none
  | _ => none

/-- Per-cell effect of the Avg Visit Duration expression on a String-dtype
column: `t.dt.hour() * 3600 + t.dt.minute() * 60 + t.dt.second()`, cast to
Int64. -/
def durationCell : JValue → JValue
  | .str s =>
    match parseHMS s.data with
    | some (h, m, sec) => .int (h * 3600 + m * 60 + sec)
    | none => .null
  | _ => .null

/-- `with_columns` adds the derived column, replacing an existing column of
the same name. -/
def putCol (cols : List PCol) (c : PCol) : List PCol :=
  if cols.any (fun x => x.name == c.name) then
    cols.map (fun x => if x.name == c.name then c else x)
  else cols ++ [c]

/-- The `.str` namespace requires a String dtype. -/
def strDtypeCheck (c : PCol) : Except PError Unit :=
  match c.dtype with
  | .tstr => .ok ()
  | _ => .error .schemaErr

/-- The `with_columns([...])` call of lines 107-119: both expressions read
columns of the selected frame, so those columns must exist and be
strings. -/
def withColsStage (df : DFrame) : Except PError DFrame := do
  let bc ← getCol df ("bounce_rate_raw")
  let _ ← strDtypeCheck bc
  let dc ← getCol df ("Avg Visit Duration")
  let _ ← strDtypeCheck dc
  let cols1 := putCol df.cols ⟨"Bounce Rate Percent", .tfloat, bc.values.map bounceCell⟩
  let cols2 := putCol cols1 ⟨"Avg Visit Duration (Seconds)", .tint, dc.values.map durationCell⟩
  .ok ⟨cols2⟩

/-! ## Nested-value serialization (lines 120-137)

Columns whose dtype is `pl.List` or `pl.Struct` are rewritten with
`map_elements(..., return_dtype=pl.String)`.  `map_elements` skips null
cells (they stay null); non-null cells arrive as a Series or dict, are
converted to Python data and serialized by `orjson.dumps` — compact
separators, keys in insertion order, UTF-8 kept verbatim, floats in
shortest decimal form. -/

def escapeJChar (c : Char) : List Char :=
  if c = '"' then ['\\', '"']
  else if c = '\\' then ['\\', '\\']
  else if c = '\n' then ['\\', 'n']
  else if c = '\r' then ['\\', 'r']
  else if c = '\t' then ['\\', 't']
  else if c = '\x08' then ['\\', 'b']
  else if c = '\x0c' then ['\\', 'f']
  else if c.toNat < 32 then
    let lo := c.toNat % 16
    let hi := c.toNat / 16
    ['\\', 'u', '0', '0',
     (if hi < 10 then Char.ofNat (48 + hi) else Char.ofNat (87 + hi)),
     (if lo < 10 then Char.ofNat (48 + lo) else Char.ofNat (87 + lo))]
  else [c]

def escapeJStr (s : String) : List Char :=
  s.data.flatMap escapeJChar

def trimZeros (ds : List Char) : List Char :=
  let t := (ds.reverse.dropWhile (· = '0')).reverse
  if t = [] then ['0'] else t

def padTo (k : Nat) (ds : List Char) : List Char :=
  List.replicate (k - ds.length) '0' ++ ds

/-- Decimal rendering of a float whose exact value is the rational `q`. -/
def renderFloat (q : ℚ) : List Char :=
  if q.den = 1 then (toString q.num).data ++ ['.', '0']
  else
    let k := (((List.range 400).filter (fun i => q.den ∣ 10 ^ i)).head?).getD 0
    let total : Int := q.num * (10 : Int) ^ k / (q.den : Int)
    let sign : List Char := if total < 0 then ['-'] else []
    let t := total.natAbs
    sign ++ (toString (t / 10 ^ k)).data ++
      '.' :: trimZeros (padTo k (toString (t % 10 ^ k)).data)

mutual

def jserialize : JValue → List Char
  | .null => "null".data
  | .bool true => "true".data
  | .bool false => "false".data
  | .int n => (toString n).data
  | .num q => renderFloat q
  | .str s => '"' :: escapeJStr s ++ ['"']
  | .arr xs => '[' :: jserializeA xs ++ [']']
  | .obj kvs => '{' :: jserializeO kvs ++ ['}']

def jserializeO : JObj → List Char
  | .nil => []
  | .cons k v rest =>
    let item := '"' :: escapeJStr k ++ '"' :: ':' :: jserialize v
    match rest with
    | .nil => item
    | .cons _ _ _ => item ++ ',' :: jserializeO rest

def jserializeA : JArr → List Char
  | .nil => []
  | .cons v rest =>
    let item := jserialize v
    match rest with
    | .nil => item
    | .cons _ _ => item ++ ',' :: jserializeA rest

end

/-- Per-cell effect of the serialization lambda under `map_elements`:
nulls are skipped and stay null; other cells become the JSON text. -/
def serializeCell (v : JValue) : JValue :=
  match v with
  | .null => .null
  | v => .str ⟨jserialize v⟩

def isComplexDtype : PType → Bool
  | .tlist => true
  | .tstruct _ => true
  | _ => false

/-- Lines 120-137: rewrite every `List`/`Struct` column to String. -/
def serializeStage (df : DFrame) : DFrame :=
  ⟨df.cols.map (fun c =>
    if isComplexDtype c.dtype then ⟨c.name, .tstr, c.values.map serializeCell⟩ else c)⟩

/-- `stage_1_polars_transform(raw_data, schema, ...)` up to the collected
frame; writing the CSV file is outside the embedded core. -/
def stage_1_polars_transform (raw : List (Option JValue)) (schema : List DataField) :
    Except PError DFrame := do
  let rows ← emapM toRow raw
  let df ← lazyFrameOfDicts rows
  let sel ← selectStage df schema
  let wc ← withColsStage sel
  .ok (serializeStage wc)

inductive PipeError where
  | config (e : ConfigError) : PipeError
  | extractExn : PipeError
  | polars (e : PError) : PipeError
  deriving DecidableEq

/-- The orchestrator (lines 194-241) up to the stage-1 frame: load the
schema (fatal on failure, before any file is touched), run the extraction
loop, transform.  The DuckDB stages consume only the CSV artifact and are
outside the embedded core. -/
def pipeline (cfg : ConfigSource) (files : List ReadResult) : Except PipeError DFrame := do
  let schema ← (load_extraction_config cfg).mapError PipeError.config
  let blobs ← (extractLoop files).mapError (fun _ => PipeError.extractExn)
  (stage_1_polars_transform blobs schema).mapError PipeError.polars

/-! ## Derived notions used by the theorems -/

/-- A `None` row or a dict row as the value `.struct.field` walks into. -/
def rowVal : Option JObj → JValue
  | none => .null
  | some kvs => .obj kvs

/-- What one `raw_data` element becomes as a frame row (total companion of
`toRow`; they agree wherever `toRow` succeeds). -/
def rawToRow : Option JValue → Option JObj
  | none => none
  | some (.obj kvs) => some kvs
  | some _ => none

/-- Pointwise reading of a whole field path from a row value. -/
def walkCells (path : List String) (v : JValue) : JValue :=
  path.foldl (fun acc seg => cellField seg acc) v

/-- Two-digit decimal rendering of `n < 100`. -/
def fmt2 (n : Nat) : List Char :=
  [Char.ofNat (48 + n / 10), Char.ofNat (48 + n % 10)]

/-- Whether the extractor's scan passes over a script text: empty, without
the sentinel, or sentinel-bearing but without a regex match. -/
def skipsNode (u : String) : Prop :=
  u = "" ∨ containsSentinel u = false ∨ searchApp u.data = none

/-- The Bounce Rate rule as the spec words it — strip one trailing percent
sign, then parse — kept separate from the implementation's `bounceCell`
(which strips the character from both ends) for the refinement
comparison. -/
def bounceSpecCell (s : String) : JValue :=
  let cs :=
    match s.data.getLast? with
    | some '%' => s.data.dropLast
    | _ => s.data
  match parseFloatQ cs with
  | some q => .num q
  | none => .null

/-- Whether a config entry is a mapping (a Python dict); only such entries
reach pydantic validation proper — a non-dict entry raises `TypeError` at
the `**` unpacking instead. -/
def isObjEntry : JValue → Bool
  | .obj _ => true
  | _ => false

/-- An entry the claim requires the loader to reject: missing `alias`,
missing `path`, or an empty `path` (non-dict entries also fail). -/
def entryMissingOrEmpty : JValue → Bool
  | .obj kvs =>
    (lookupJ ("alias") kvs).isNone || (lookupJ ("path") kvs).isNone ||
      (match lookupJ ("path") kvs with
       | some (.arr .nil) => true
       | _ => false)
  | _ => true

/-! ## Concrete fixtures for witnesses and counterexamples -/

def doc1 : JValue :=
  jobj [("layout", jobj [("data", jobj [
    ("bounce_rate_raw", .str "42.5%"),
    ("Avg Visit Duration", .str "01:02:03"),
    ("tags", jarr [.str "a"])])])]

/-- Like `doc1` but with no `tags` key. -/
def doc2 : JValue :=
  jobj [("layout", jobj [("data", jobj [
    ("bounce_rate_raw", .str "10%"),
    ("Avg Visit Duration", .str "00:00:05")])])]

def sch1 : List DataField :=
  [⟨"bounce_rate_raw", ["bounce_rate_raw"]⟩,
   ⟨"Avg Visit Duration", ["Avg Visit Duration"]⟩,
   ⟨"Tags", ["tags"]⟩]

def batch1 : List (Option JValue) := [some doc1, none]

/-- The frame `stage_1_polars_transform` produces on `batch1` with `sch1`. -/
def frame1 : DFrame :=
  ⟨[⟨"bounce_rate_raw", .tstr, [.str "42.5%", .null]⟩,
    ⟨"Avg Visit Duration", .tstr, [.str "01:02:03", .null]⟩,
    ⟨"Tags", .tstr, [.str "[\"a\"]", .null]⟩,
    ⟨"Bounce Rate Percent", .tfloat, [.num (mkRat 85 2), .null]⟩,
    ⟨"Avg Visit Duration (Seconds)", .tint, [.int 3723, .null]⟩]⟩

/-- Two rows whose `layout.data` structs carry different keys: `x` is
present in row 1 only. -/
def rows2 : List (Option JObj) :=
  [some (JObj.ofList [("layout", jobj [("data", jobj [("x", .int 1)])])]),
   some (JObj.ofList [("layout", jobj [("data", jobj [("y", .int 2)])])])]

def frame2 : DFrame :=
  ⟨[⟨"layout",
     .tstruct (.cons "data" (.tstruct (.cons "x" .tint (.cons "y" .tint .nil))) .nil),
     [jobj [("data", jobj [("x", .int 1)])], jobj [("data", jobj [("y", .int 2)])]]⟩]⟩

def colX2 : PCol := ⟨"X", .tint, [.int 1, .null]⟩

/-- A small already-selected frame for exercising `with_columns` directly. -/
def frameW : DFrame :=
  ⟨[⟨"bounce_rate_raw", .tstr, [.str "42.5%"]⟩,
    ⟨"Avg Visit Duration", .tstr, [.str "01:02:03"]⟩]⟩

/-- The frame `withColsStage` produces on `frameW`. -/
def frameWC : DFrame :=
  ⟨[⟨"bounce_rate_raw", .tstr, [.str "42.5%"]⟩,
    ⟨"Avg Visit Duration", .tstr, [.str "01:02:03"]⟩,
    ⟨"Bounce Rate Percent", .tfloat, [.num (mkRat 85 2)]⟩,
    ⟨"Avg Visit Duration (Seconds)", .tint, [.int 3723]⟩]⟩

/-- Column values positionally aligned with the raw batch: each cell is a
function of its own document only, and failed extractions give null. -/
def NullAligned (raw : List (Option JValue)) (vals : List JValue) : Prop :=
  ∃ f, vals = raw.map f ∧ f none = JValue.null

/-! # Theorems -/

lemma ebind_ok {ε α β : Type} {x : Except ε α} {f : α → Except ε β} {b : β}
    (h : x >>= f = .ok b) : ∃ a, x = .ok a ∧ f a = .ok b := by
  cases x with
  | error e => simp [Bind.bind, Except.bind] at h
  | ok a => exact ⟨a, rfl, by simpa [Bind.bind, Except.bind] using h⟩

lemma extractDoc_append_skips (pre rest : List String) (h : ∀ u ∈ pre, skipsNode u) :
    extractDoc (pre ++ rest) = extractDoc rest := by
  induction pre with
  | nil => rfl
  | cons u us ih =>
    have hu := h u (List.mem_cons_self _ _)
    have ih2 := ih (fun v hv => h v (List.mem_cons_of_mem _ hv))
    rcases hu with h1 | h2 | h3
    · simp [extractDoc, h1, ih2]
    · simp [extractDoc, h2, ih2]
    · by_cases hc : u ≠ "" ∧ containsSentinel u = true
      · simp only [List.cons_append, extractDoc, if_pos hc, h3]
        exact ih2
      · simp only [List.cons_append, extractDoc, if_neg hc]
        exact ih2

/-- C9: on a readable document none of whose script nodes contains the
sentinel marker, `extract` returns `None`, does not raise, and logs a
warning (not an error). -/
theorem C9_no_sentinel_returns_none (scripts : List String)
    (h : ∀ t ∈ scripts, containsSentinel t = false) :
    extract (.readOk scripts) = .ok ⟨none, some .warnLog⟩ := by
  have main : ∀ l : List String, (∀ t ∈ l, containsSentinel t = false) →
      extractDoc l = ⟨none, some .warnLog⟩ := by
    intro l
    induction l with
    | nil => intro _; rfl
    | cons t ts ih =>
      intro hl
      have ht : containsSentinel t = false := hl t (List.mem_cons_self t ts)
      have hrest := ih (fun u hu => hl u (List.mem_cons_of_mem t hu))
      simp [extractDoc, ht, hrest]
  show Except.ok (extractDoc scripts) = _
  rw [main scripts h]

theorem C9_witness : extract (.readOk ["hello", "var x = 1;"]) = .ok ⟨none, some .warnLog⟩ :=
  C9_no_sentinel_returns_none ["hello", "var x = 1;"] (by decide)

lemma extractLoop_error_of_mem {files : List ReadResult}
    (h : ReadResult.otherError ∈ files) : extractLoop files = .error () := by
  induction files with
  | nil => cases h
  | cons f fs ih =>
    rcases List.mem_cons.mp h with rfl | hfs
    · rfl
    · cases f <;> simp [extractLoop, extract, Bind.bind, Except.bind, ih hfs]

/-- C10: `extract` recovers locally (logging an error, returning `None`)
exactly for file-not-found, undecodable text, and JSON decode failure; a
readable document never raises; any other exception propagates out of
`extract` and out of the pipeline's extraction loop, aborting the whole
batch. -/
theorem C10_recovery_scope :
    extract .notFound = .ok ⟨none, some .errLog⟩ ∧
    extract .undecodable = .ok ⟨none, some .errLog⟩ ∧
    (∀ t ts cap, t ≠ "" → containsSentinel t = true → searchApp t.data = some cap →
      parseJson cap = none → extract (.readOk (t :: ts)) = .ok ⟨none, some .errLog⟩) ∧
    (∀ scripts, extract (.readOk scripts) = .ok (extractDoc scripts)) ∧
    extract .otherError = .error () ∧
    (∀ files, ReadResult.otherError ∈ files → extractLoop files = .error ()) := by
  refine ⟨rfl, rfl, ?_, fun _ => rfl, rfl, fun _ h => extractLoop_error_of_mem h⟩
  intro t ts cap h1 h2 h3 h4
  show Except.ok (extractDoc (t :: ts)) = _
  simp [extractDoc, h1, h2, h3, h4]

theorem C10_witness :
    extractLoop [ReadResult.otherError] = .error () ∧
    extract (.readOk ["window.__APP_DATA__ = \x7b]\x7d"]) = .ok ⟨none, some .errLog⟩ :=
  ⟨C10_recovery_scope.2.2.2.2.2 [ReadResult.otherError] (by simp),
   C10_recovery_scope.2.2.1 "window.__APP_DATA__ = \x7b]\x7d" [] ("\x7b]\x7d".data)
     (by decide) (by decide) (by decide) (by decide)⟩

/-- C4 counterexample: a document whose FIRST sentinel-bearing script node
has no locatable literal (no opening brace) is not answered with an error
and `None` — the scan continues to later nodes and can return a value; and
when no later node matches, the log is a warning, not an error. -/
theorem C4_counterexample :
    extract (.readOk ["window.__APP_DATA__ = 1", "window.__APP_DATA__ = \x7b\"a\":1\x7d"])
        = .ok ⟨some (jobj [("a", .int 1)]), none⟩ ∧
    extract (.readOk ["window.__APP_DATA__ = 1"]) = .ok ⟨none, some .warnLog⟩ :=
  ⟨by decide, by decide⟩

/-- C4 (amended): a parse failure of the captured span at the first
regex-matching node logs an error and returns `None` without examining any
further node; but a sentinel-bearing node where the literal cannot be
located is simply passed over, and if no node yields a match the extractor
logs a warning and returns `None`. -/
theorem C4_first_match_decides :
    (∀ pre t ts cap, (∀ u ∈ pre, skipsNode u) → t ≠ "" → containsSentinel t = true →
        searchApp t.data = some cap → parseJson cap = none →
        extract (.readOk (pre ++ t :: ts)) = .ok ⟨none, some .errLog⟩) ∧
    (∀ pre t ts cap v, (∀ u ∈ pre, skipsNode u) → t ≠ "" → containsSentinel t = true →
        searchApp t.data = some cap → parseJson cap = some v →
        extract (.readOk (pre ++ t :: ts)) = .ok ⟨some v, none⟩) ∧
    (∀ scripts, (∀ u ∈ scripts, skipsNode u) →
        extract (.readOk scripts) = .ok ⟨none, some .warnLog⟩) := by
  refine ⟨?_, ?_, ?_⟩
  · intro pre t ts cap hpre h1 h2 h3 h4
    show Except.ok (extractDoc (pre ++ t :: ts)) = _
    rw [extractDoc_append_skips pre _ hpre]
    simp [extractDoc, h1, h2, h3, h4]
  · intro pre t ts cap v hpre h1 h2 h3 h4
    show Except.ok (extractDoc (pre ++ t :: ts)) = _
    rw [extractDoc_append_skips pre _ hpre]
    simp [extractDoc, h1, h2, h3, h4]
  · intro scripts h
    show Except.ok (extractDoc scripts) = _
    have e : scripts = scripts ++ [] := by simp
    rw [e, extractDoc_append_skips scripts [] h]
    rfl

theorem C4_witness :
    extract (.readOk ["window.__APP_DATA__ = 1", "window.__APP_DATA__ = \x7b]\x7d", "later"])
        = .ok ⟨none, some .errLog⟩ :=
  C4_first_match_decides.1 ["window.__APP_DATA__ = 1"] "window.__APP_DATA__ = \x7b]\x7d"
    ["later"] ("\x7b]\x7d".data)
    (by intro u hu
        rcases List.mem_singleton.mp hu with rfl
        exact Or.inr (Or.inr (by decide)))
    (by decide) (by decide) (by decide) (by decide)

lemma toStrList_length : ∀ (ps : JArr), allStrings ps = true →
    (toStrList ps).length = ps.length
  | .nil, _ => rfl
  | .cons v rest, h => by
    cases v <;> simp [allStrings] at h
    case str s => simp [toStrList, JArr.length, toStrList_length rest h]

lemma asStr_some {o : Option JValue} {a : String} (h : asStr o = some a) :
    o = some (.str a) := by
  match o with
  | none => simp [asStr] at h
  | some .null => simp [asStr] at h
  | some (.bool b) => simp [asStr] at h
  | some (.int n) => simp [asStr] at h
  | some (.num q) => simp [asStr] at h
  | some (.str s) => simp [asStr] at h; rw [h]
  | some (.arr xs) => simp [asStr] at h
  | some (.obj kvs) => simp [asStr] at h

lemma asArr_some {o : Option JValue} {ps : JArr} (h : asArr o = some ps) :
    o = some (.arr ps) := by
  match o with
  | none => simp [asArr] at h
  | some .null => simp [asArr] at h
  | some (.bool b) => simp [asArr] at h
  | some (.int n) => simp [asArr] at h
  | some (.num q) => simp [asArr] at h
  | some (.str s) => simp [asArr] at h
  | some (.arr xs) => simp [asArr] at h; rw [h]
  | some (.obj kvs) => simp [asArr] at h

lemma validateField_ok_shape {e : JValue} {f : DataField} (h : validateField e = .ok f) :
    f.«alias».length ≥ 1 ∧ f.path.length ≥ 1 ∧ entryMissingOrEmpty e = false := by
  cases e with
  | null => exact absurd h (by simp [validateField])
  | bool b => exact absurd h (by simp [validateField])
  | int n => exact absurd h (by simp [validateField])
  | num q => exact absurd h (by simp [validateField])
  | str s => exact absurd h (by simp [validateField])
  | arr xs => exact absurd h (by simp [validateField])
  | obj kvs =>
    unfold validateField at h
    simp only [] at h
    rcases ha : asStr (lookupJ ("alias") kvs) with _ | a <;>
      rcases hp : asArr (lookupJ ("path") kvs) with _ | ps <;>
        rw [ha, hp] at h
    · simp at h
    · simp at h
    · simp at h
    · simp only [] at h
      by_cases hcond : ((JObj.keys kvs).all fun k => k = "alias" ∨ k = "path") = true ∧
          a.length ≥ 1 ∧ ps.length ≥ 1 ∧ allStrings ps = true
      · rw [if_pos hcond] at h
        cases h
        refine ⟨hcond.2.1, ?_, ?_⟩
        · rw [toStrList_length ps hcond.2.2.2]
          exact hcond.2.2.1
        · have ha2 := asStr_some ha
          have hp2 := asArr_some hp
          cases ps with
          | nil => exact absurd hcond.2.2.1 (by simp [JArr.length])
          | cons y ys => simp [entryMissingOrEmpty, ha2, hp2]
      · rw [if_neg hcond] at h
        exact absurd h (by simp)

lemma validateField_rejects {e : JValue} (he : entryMissingOrEmpty e = true) :
    ∃ err, validateField e = .error err := by
  cases hv : validateField e with
  | ok f => exact absurd (validateField_ok_shape hv).2.2 (by simp [he])
  | error err => exact ⟨err, rfl⟩

lemma validateFields_ok_all {l : List JValue} {fs : List DataField}
    (h : validateFields l = .ok fs) :
    ∀ f ∈ fs, f.«alias».length ≥ 1 ∧ f.path.length ≥ 1 := by
  induction l generalizing fs with
  | nil =>
    unfold validateFields at h
    cases h
    intro f hf
    cases hf
  | cons e rest ih =>
    unfold validateFields at h
    obtain ⟨f0, hf0, h2⟩ := ebind_ok h
    obtain ⟨fs0, hfs0, h3⟩ := ebind_ok h2
    cases h3
    intro f hf
    rcases List.mem_cons.mp hf with rfl | hmem
    · exact ⟨(validateField_ok_shape hf0).1, (validateField_ok_shape hf0).2.1⟩
    · exact ih hfs0 f hmem

lemma validateFields_error_of_bad {l : List JValue} {e : JValue}
    (hmem : e ∈ l) (he : entryMissingOrEmpty e = true) :
    (validateFields l).isOk = false := by
  induction l with
  | nil => cases hmem
  | cons a rest ih =>
    unfold validateFields
    cases hva : validateField a with
    | error err => rfl
    | ok f =>
      rcases List.mem_cons.mp hmem with rfl | hmem2
      · obtain ⟨err, herr⟩ := validateField_rejects he
        rw [hva] at herr
        exact absurd herr (by simp)
      · cases hvr : validateFields rest with
        | error err => simp [Bind.bind, Except.bind, hva, hvr, Except.isOk, Except.toBool]
        | ok fs =>
          have := ih hmem2
          rw [hvr] at this
          exact absurd this (by simp [Except.isOk, Except.toBool])

lemma validateField_obj_error {kvs : JObj} {err : ConfigError}
    (h : validateField (.obj kvs) = .error err) : err = .validation := by
  unfold validateField at h
  simp only [] at h
  rcases ha : asStr (lookupJ ("alias") kvs) with _ | a <;>
    rcases hp : asArr (lookupJ ("path") kvs) with _ | ps <;> rw [ha, hp] at h
  · simp only [] at h
    exact (Except.error.inj h).symm
  · simp only [] at h
    exact (Except.error.inj h).symm
  · simp only [] at h
    exact (Except.error.inj h).symm
  · simp only [] at h
    by_cases hcond : ((JObj.keys kvs).all fun k => k = "alias" ∨ k = "path") = true ∧
        a.length ≥ 1 ∧ ps.length ≥ 1 ∧ allStrings ps = true
    · rw [if_pos hcond] at h
      exact absurd h (by simp)
    · rw [if_neg hcond] at h
      exact (Except.error.inj h).symm

/-- A list of mapping entries with at least one invalid entry always fails
with the `.validation` error kind: every rejection path pydantic takes on a
dict entry is a `ValidationError`. -/
lemma validateFields_validation : ∀ {l : List JValue},
    (∀ u ∈ l, isObjEntry u = true) → (∃ e ∈ l, entryMissingOrEmpty e = true) →
    validateFields l = .error .validation := by
  intro l
  induction l with
  | nil =>
    intro _ hbad
    obtain ⟨e, he, _⟩ := hbad
    cases he
  | cons a rest ih =>
    intro hobj hbad
    have hobja := hobj a (List.mem_cons_self _ _)
    cases a with
    | null => exact absurd hobja (by simp [isObjEntry])
    | bool b => exact absurd hobja (by simp [isObjEntry])
    | int n => exact absurd hobja (by simp [isObjEntry])
    | num q => exact absurd hobja (by simp [isObjEntry])
    | str s => exact absurd hobja (by simp [isObjEntry])
    | arr xs => exact absurd hobja (by simp [isObjEntry])
    | obj kvs =>
      cases hva : validateField (.obj kvs) with
      | error err =>
        have herr := validateField_obj_error hva
        subst herr
        unfold validateFields
        rw [hva]
        rfl
      | ok f =>
        obtain ⟨e, hmem, hbad_e⟩ := hbad
        rcases List.mem_cons.mp hmem with heq | hmem2
        · rw [heq] at hbad_e
          exact absurd (validateField_ok_shape hva).2.2 (by simp [hbad_e])
        · have ih2 := ih (fun u hu => hobj u (List.mem_cons_of_mem _ hu)) ⟨e, hmem2, hbad_e⟩
          unfold validateFields
          rw [hva, ih2]
          rfl

/-- C2 counterexample: a schema source whose two entries repeat the alias
`A` loads successfully — no validation error is raised for duplicate
aliases. -/
theorem C2_counterexample :
    load_extraction_config (.parsed (jarr
      [jobj [("alias", .str "A"), ("path", jarr [.str "x"])],
       jobj [("alias", .str "A"), ("path", jarr [.str "y"])]]))
      = .ok [⟨"A", ["x"]⟩, ⟨"A", ["y"]⟩] := by decide

/-- C2 (amended): the loader fails with a not-found error when the source
does not exist, a parse error when the content is not valid JSON, and a
`.validation` error — before any extraction begins — when any mapping
entry is missing `alias` or `path` or has an empty `path`; loaded fields
always have a nonempty alias and path.  Duplicate aliases, however, are
NOT rejected by the loader (see the counterexample). -/
theorem C2_loader_failures :
    load_extraction_config .missing = .error .notFound ∧
    load_extraction_config .unparsable = .error .parseError ∧
    (∀ entries e, e ∈ jarrToList entries → entryMissingOrEmpty e = true →
      (load_extraction_config (.parsed (.arr entries))).isOk = false) ∧
    (∀ entries e, (∀ u ∈ jarrToList entries, isObjEntry u = true) →
      e ∈ jarrToList entries → entryMissingOrEmpty e = true →
      load_extraction_config (.parsed (.arr entries)) = .error .validation) ∧
    (∀ cfg fields, load_extraction_config cfg = .ok fields →
      ∀ f ∈ fields, f.«alias».length ≥ 1 ∧ f.path.length ≥ 1) ∧
    (∀ cfg err files, load_extraction_config cfg = .error err →
      pipeline cfg files = .error (.config err)) := by
  refine ⟨rfl, rfl, ?_, ?_, ?_, ?_⟩
  · intro entries e hmem he
    exact validateFields_error_of_bad hmem he
  · intro entries e hobj hmem hbad
    show validateFields (jarrToList entries) = .error .validation
    exact validateFields_validation hobj ⟨e, hmem, hbad⟩
  · intro cfg fields h
    cases cfg with
    | missing => exact absurd h (by simp [load_extraction_config])
    | unparsable => exact absurd h (by simp [load_extraction_config])
    | parsed v =>
      cases v with
      | null => exact absurd h (by simp [load_extraction_config])
      | bool b => exact absurd h (by simp [load_extraction_config])
      | int n => exact absurd h (by simp [load_extraction_config])
      | num q => exact absurd h (by simp [load_extraction_config])
      | str s => exact absurd h (by simp [load_extraction_config])
      | obj kvs => exact absurd h (by simp [load_extraction_config])
      | arr entries => exact validateFields_ok_all h
  · intro cfg err files h
    simp [pipeline, h, Except.mapError, Bind.bind, Except.bind]

theorem C2_witness :
    load_extraction_config (.parsed (.arr (JArr.ofList [jobj [("alias", .str "A")]])))
        = .error .validation ∧
    pipeline .missing [.readOk ["hello"]] = .error (.config .notFound) :=
  ⟨C2_loader_failures.2.2.2.1 (JArr.ofList [jobj [("alias", .str "A")]])
      (jobj [("alias", .str "A")]) (by decide) (by decide) (by decide),
   C2_loader_failures.2.2.2.2.2 .missing .notFound [.readOk ["hello"]] rfl⟩

lemma find?_putCol_self (cols : List PCol) (c : PCol) :
    (putCol cols c).find? (fun x => x.name == c.name) = some c := by
  unfold putCol
  by_cases hany : cols.any (fun x => x.name == c.name) = true
  · rw [if_pos hany]
    induction cols with
    | nil => simp at hany
    | cons x xs ih =>
      by_cases hx : (x.name == c.name) = true
      · simp [List.find?, hx]
      · simp only [List.map, List.find?, hx, if_neg, Bool.false_eq_true, not_false_iff]
        simp only [List.any_cons, hx, Bool.false_or] at hany
        exact ih hany
  · rw [if_neg hany]
    induction cols with
    | nil => simp [List.find?]
    | cons x xs ih =>
      simp only [List.any_cons, Bool.or_eq_true, not_or] at hany
      have hx : (x.name == c.name) = false := by
        cases hb : x.name == c.name
        · rfl
        · exact absurd hb hany.1
      simp only [List.cons_append, List.find?, hx]
      exact ih (by simpa using hany.2)

lemma getCol_putCol (cols : List PCol) (c : PCol) :
    getCol ⟨putCol cols c⟩ c.name = .ok c := by
  simp [getCol, find?_putCol_self]

lemma find?_map_replace (xs : List PCol) (c : PCol) (n : String)
    (hc : (c.name == n) = false) :
    (xs.map (fun x => if x.name == c.name then c else x)).find? (fun x => x.name == n)
      = xs.find? (fun x => x.name == n) := by
  induction xs with
  | nil => rfl
  | cons x rest ih =>
    simp only [List.map]
    by_cases hx : (x.name == c.name) = true
    · have hxn : (x.name == n) = false := by rw [eq_of_beq hx]; exact hc
      rw [if_pos hx]
      simp only [List.find?, hc, hxn]
      exact ih
    · rw [if_neg hx]
      cases hxn : x.name == n with
      | true => simp only [List.find?, hxn]
      | false =>
        simp only [List.find?, hxn]
        exact ih

lemma getCol_putCol_ne (cols : List PCol) (c : PCol) (n : String) (hne : n ≠ c.name) :
    getCol ⟨putCol cols c⟩ n = getCol ⟨cols⟩ n := by
  have hc : (c.name == n) = false := by
    cases hb : c.name == n
    · rfl
    · exact absurd (eq_of_beq hb).symm hne
  unfold getCol putCol
  by_cases hany : cols.any (fun x => x.name == c.name) = true
  · rw [if_pos hany]
    have := find?_map_replace cols c n hc
    simp only [] at this ⊢
    rw [this]
  · rw [if_neg hany]
    have happ : List.find? (fun x => x.name == n) (cols ++ [c])
        = List.find? (fun x => x.name == n) cols := by
      rw [List.find?_append]
      have h1 : List.find? (fun x => x.name == n) [c] = none := by
        simp only [List.find?, hc]
      rw [h1]
      simp
    simp only [] at happ ⊢
    rw [happ]

lemma strDtypeCheck_ok {c : PCol} {u : Unit} (h : strDtypeCheck c = .ok u) :
    c.dtype = .tstr := by
  unfold strDtypeCheck at h
  cases hd : c.dtype <;> rw [hd] at h <;> first | rfl | exact absurd h (by simp)

lemma withColsStage_ok {df out : DFrame} (h : withColsStage df = .ok out) :
    ∃ bc dc, getCol df ("bounce_rate_raw") = .ok bc ∧
      getCol df ("Avg Visit Duration") = .ok dc ∧
      out = ⟨putCol (putCol df.cols ⟨"Bounce Rate Percent", .tfloat, bc.values.map bounceCell⟩)
              ⟨"Avg Visit Duration (Seconds)", .tint, dc.values.map durationCell⟩⟩ := by
  unfold withColsStage at h
  obtain ⟨bc, hbc, h2⟩ := ebind_ok h
  obtain ⟨u1, hu1, h3⟩ := ebind_ok h2
  obtain ⟨dc, hdc, h4⟩ := ebind_ok h3
  obtain ⟨u2, hu2, h5⟩ := ebind_ok h4
  cases h5
  exact ⟨bc, dc, hbc, hdc, rfl⟩

lemma digit_char_facts : ∀ d, d < 10 →
    isDigitChar (Char.ofNat (48 + d)) = true ∧ (Char.ofNat (48 + d)).toNat - 48 = d := by
  decide

lemma take2dig_fmt2 (n : Nat) (hn : n < 100) (rest : List Char) :
    take2dig (fmt2 n ++ rest) = some (n, rest) := by
  have h1 : n / 10 < 10 := by omega
  have h2 : n % 10 < 10 := Nat.mod_lt _ (by norm_num)
  have d1 := digit_char_facts _ h1
  have d2 := digit_char_facts _ h2
  simp only [fmt2, List.cons_append, List.nil_append, take2dig, d1.1, d2.1, if_pos]
  rw [d1.2, d2.2]
  congr 1
  congr 1
  omega

lemma parseHMS_fmt2 (h m s : Nat) (hh : h < 24) (hm : m < 60) (hs : s < 60) :
    parseHMS (fmt2 h ++ ':' :: (fmt2 m ++ ':' :: fmt2 s)) = some (h, m, s) := by
  have e3 : fmt2 s = fmt2 s ++ [] := by simp
  unfold parseHMS
  rw [take2dig_fmt2 h (by omega)]
  simp only [Option.bind_eq_bind, Option.some_bind]
  rw [take2dig_fmt2 m (by omega)]
  simp only [Option.some_bind]
  rw [e3, take2dig_fmt2 s (by omega)]
  simp only [Option.some_bind]
  rw [if_pos]
  exact ⟨by trivial, by omega, by omega, by omega⟩

/-- C6: a value of the Avg Visit Duration column of the two-digit form
HH:MM:SS (with in-range time-of-day components) is parsed and stored in the
derived Int64 column Avg Visit Duration (Seconds) as
hour*3600 + minute*60 + second; an unparsable value yields null; and
`with_columns` derives that column pointwise from the source column. -/
theorem C6_duration_seconds :
    (∀ h m s : Nat, h < 24 → m < 60 → s < 60 →
      durationCell (.str ⟨fmt2 h ++ ':' :: (fmt2 m ++ ':' :: fmt2 s)⟩)
        = .int (h * 3600 + m * 60 + s)) ∧
    (∀ s : String, parseHMS s.data = none → durationCell (.str s) = .null) ∧
    (∀ df out src, withColsStage df = .ok out →
      getCol df ("Avg Visit Duration") = .ok src →
      getCol out ("Avg Visit Duration (Seconds)")
        = .ok ⟨"Avg Visit Duration (Seconds)", .tint, src.values.map durationCell⟩) := by
  refine ⟨?_, ?_, ?_⟩
  · intro h m s hh hm hs
    show (match parseHMS (fmt2 h ++ ':' :: (fmt2 m ++ ':' :: fmt2 s)) with
      | some (h, m, sec) => JValue.int (h * 3600 + m * 60 + sec)
      | none => JValue.null) = _
    rw [parseHMS_fmt2 h m s hh hm hs]
  · intro s hs
    show (match parseHMS s.data with
      | some (h, m, sec) => JValue.int (h * 3600 + m * 60 + sec)
      | none => JValue.null) = _
    rw [hs]
  · intro df out src h hsrc
    obtain ⟨bc, dc, hbc, hdc, hout⟩ := withColsStage_ok h
    have hdceq : dc = src := by
      rw [hsrc] at hdc
      cases hdc
      rfl
    subst hdceq hout
    exact getCol_putCol _ ⟨"Avg Visit Duration (Seconds)", .tint, dc.values.map durationCell⟩

theorem C6_witness :
    durationCell (.str "01:02:03") = .int 3723 ∧
    durationCell (.str "oops") = .null ∧
    getCol frameWC ("Avg Visit Duration (Seconds)")
      = .ok ⟨"Avg Visit Duration (Seconds)", .tint, [.int 3723]⟩ :=
  ⟨C6_duration_seconds.1 1 2 3 (by decide) (by decide) (by decide),
   C6_duration_seconds.2.1 "oops" (by decide),
   C6_duration_seconds.2.2 frameW frameWC ⟨"Avg Visit Duration", .tstr, [.str "01:02:03"]⟩
     (by decide) (by decide)⟩

/-- C7 counterexample: the code strips the percent character from BOTH ends
of the string (`str.strip_chars("%")`), not only a trailing one: on
`"%42.5"` the claim's process (strip one trailing `%`, then parse) yields a
missing value, while the code produces 42.5. -/
theorem C7_counterexample :
    bounceCell (.str "%42.5") = .num (mkRat 85 2) ∧
    bounceSpecCell "%42.5" = .null :=
  ⟨by decide, by decide⟩

/-- C7 (amended): the Bounce Rate rule strips the percent character from
both ends of the string, parses the remainder as a decimal number into
Bounce Rate Percent ("42.5%" gives 42.5), and an unparsable or missing
value yields null rather than an error; `with_columns` derives the column
pointwise from `bounce_rate_raw`. -/
theorem C7_bounce_rate_percent :
    (∀ (s : String) q, parseFloatQ (stripPct s.data) = some q →
      bounceCell (.str s) = .num q) ∧
    (∀ s : String, parseFloatQ (stripPct s.data) = none → bounceCell (.str s) = .null) ∧
    bounceCell .null = .null ∧
    bounceCell (.str "42.5%") = .num (mkRat 85 2) ∧
    bounceCell (.str "oops") = .null ∧
    (∀ df out src, withColsStage df = .ok out →
      getCol df ("bounce_rate_raw") = .ok src →
      getCol out ("Bounce Rate Percent")
        = .ok ⟨"Bounce Rate Percent", .tfloat, src.values.map bounceCell⟩) := by
  refine ⟨?_, ?_, rfl, by decide, by decide, ?_⟩
  · intro s q hq
    show (match parseFloatQ (stripPct s.data) with
      | some q => JValue.num q
      | none => JValue.null) = _
    rw [hq]
  · intro s hq
    show (match parseFloatQ (stripPct s.data) with
      | some q => JValue.num q
      | none => JValue.null) = _
    rw [hq]
  · intro df out src h hsrc
    obtain ⟨bc, dc, hbc, hdc, hout⟩ := withColsStage_ok h
    have hbceq : bc = src := by
      rw [hsrc] at hbc
      cases hbc
      rfl
    subst hbceq hout
    rw [getCol_putCol_ne (putCol df.cols ⟨"Bounce Rate Percent", .tfloat, bc.values.map bounceCell⟩)
      ⟨"Avg Visit Duration (Seconds)", .tint, dc.values.map durationCell⟩
      "Bounce Rate Percent" (by simp)]
    exact getCol_putCol _ ⟨"Bounce Rate Percent", .tfloat, bc.values.map bounceCell⟩

theorem C7_witness :
    bounceCell (.str "42.50%") = .num (mkRat 425 10) ∧
    bounceCell (.str "n/a") = .null ∧
    getCol frameWC ("Bounce Rate Percent")
      = .ok ⟨"Bounce Rate Percent", .tfloat, [.num (mkRat 85 2)]⟩ :=
  ⟨C7_bounce_rate_percent.1 "42.50%" (mkRat 425 10) (by decide),
   C7_bounce_rate_percent.2.1 "n/a" (by decide),
   C7_bounce_rate_percent.2.2.2.2.2 frameW frameWC ⟨"bounce_rate_raw", .tstr, [.str "42.5%"]⟩
     (by decide) (by decide)⟩

/-- C3 counterexample: in a serialized (`List`-dtype) column, a missing
value stays missing.  On a two-document batch where only the first document
carries `tags`, the Tags column ends as the JSON text for row 1 and null —
not the string "null" — for row 2. -/
theorem C3_counterexample :
    (do
      let df ← stage_1_polars_transform [some doc1, some doc2] sch1
      getCol df ("Tags")) = .ok ⟨"Tags", .tstr, [.str "[\"a\"]", .null]⟩ := by
  decide

/-- C3 (amended): every column whose dtype is a nested type (`List` or
`Struct`) is rewritten pointwise, serializing each present value to its
compact JSON text; null cells are skipped by `map_elements` and remain
missing (they do not become the string "null"); other columns pass through
unchanged. -/
theorem C3_nested_serialization :
    (∀ df c, c ∈ df.cols → isComplexDtype c.dtype = true →
      (⟨c.name, .tstr, c.values.map serializeCell⟩ : PCol) ∈ (serializeStage df).cols) ∧
    (∀ df c, c ∈ df.cols → isComplexDtype c.dtype = false → c ∈ (serializeStage df).cols) ∧
    serializeCell .null = .null ∧
    (∀ kvs, serializeCell (.obj kvs) = .str ⟨jserialize (.obj kvs)⟩) ∧
    (∀ xs, serializeCell (.arr xs) = .str ⟨jserialize (.arr xs)⟩) := by
  refine ⟨?_, ?_, rfl, fun _ => rfl, fun _ => rfl⟩
  · intro df c hc hcomplex
    unfold serializeStage
    refine List.mem_map.mpr ⟨c, hc, ?_⟩
    simp [hcomplex]
  · intro df c hc hplain
    unfold serializeStage
    refine List.mem_map.mpr ⟨c, hc, ?_⟩
    simp [hplain]

theorem C3_witness :
    (⟨"Tags", .tstr, [.str "[\"a\"]", .null]⟩ : PCol)
      ∈ (serializeStage ⟨[⟨"Tags", .tlist, [jarr [.str "a"], .null]⟩]⟩).cols ∧
    serializeCell (jobj [("a", .int 1)]) = .str "\x7b\"a\":1\x7d" := by
  constructor
  · have := C3_nested_serialization.1 ⟨[⟨"Tags", .tlist, [jarr [.str "a"], .null]⟩]⟩
      ⟨"Tags", .tlist, [jarr [.str "a"], .null]⟩ (by simp) (by decide)
    simpa using this
  · exact C3_nested_serialization.2.2.2.1 (JObj.ofList [("a", .int 1)])

/-- C8: the round trip — `extract` on a document whose script node carries
`window.__APP_DATA__ = \x7b"layout":\x7b"data":\x7b"x":1\x7d\x7d\x7d`,
followed by the projection (frame construction and the schema `select`,
etl_pipeline.py lines 102-107) with the single mapping `path ["x"]` aliased
`"X"` — yields exactly the one-row frame `\x7b"X": 1\x7d`. -/
theorem C8_round_trip :
    extract (.readOk ["window.__APP_DATA__ = \x7b\"layout\":\x7b\"data\":\x7b\"x\":1\x7d\x7d\x7d"])
      = .ok ⟨some (jobj [("layout", jobj [("data", jobj [("x", .int 1)])])]), none⟩ ∧
    (do
      let rows ← emapM toRow [some (jobj [("layout", jobj [("data", jobj [("x", .int 1)])])])]
      let df ← lazyFrameOfDicts rows
      selectStage df [⟨"X", ["x"]⟩]) = .ok ⟨[⟨"X", .tint, [.int 1]⟩]⟩ :=
  ⟨by decide, by decide⟩

lemma emapM_ok_mem {α β : Type} {f : α → Except PError β} :
    ∀ {l : List α} {out : List β}, emapM f l = .ok out → ∀ b ∈ out, ∃ a ∈ l, f a = .ok b := by
  intro l
  induction l with
  | nil =>
    intro out h b hb
    unfold emapM at h
    cases h
    cases hb
  | cons a rest ih =>
    intro out h b hb
    unfold emapM at h
    obtain ⟨b0, hb0, h2⟩ := ebind_ok h
    obtain ⟨bs, hbs, h3⟩ := ebind_ok h2
    cases h3
    rcases List.mem_cons.mp hb with rfl | hmem
    · exact ⟨a, List.mem_cons_self _ _, hb0⟩
    · obtain ⟨a2, ha2, hfa2⟩ := ih hbs b hmem
      exact ⟨a2, List.mem_cons_of_mem _ ha2, hfa2⟩

lemma emapM_eq_map {α β : Type} {f : α → Except PError β} (g : α → β)
    (hfg : ∀ a b, f a = .ok b → b = g a) :
    ∀ {l : List α} {out : List β}, emapM f l = .ok out → out = l.map g := by
  intro l
  induction l with
  | nil =>
    intro out h
    unfold emapM at h
    cases h
    rfl
  | cons a rest ih =>
    intro out h
    unfold emapM at h
    obtain ⟨b0, hb0, h2⟩ := ebind_ok h
    obtain ⟨bs, hbs, h3⟩ := ebind_ok h2
    cases h3
    rw [List.map, ← hfg a b0 hb0, ih hbs]

lemma toRow_eq : ∀ (a : Option JValue) (b : Option JObj), toRow a = .ok b → b = rawToRow a := by
  intro a b h
  cases a with
  | none =>
    cases h
    rfl
  | some v =>
    cases v with
    | obj kvs =>
      cases h
      rfl
    | null => exact absurd h (by simp [toRow])
    | bool b2 => exact absurd h (by simp [toRow])
    | int n => exact absurd h (by simp [toRow])
    | num q => exact absurd h (by simp [toRow])
    | str s => exact absurd h (by simp [toRow])
    | arr xs => exact absurd h (by simp [toRow])

lemma lazyFrame_cols {rows : List (Option JObj)} {df : DFrame}
    (h : lazyFrameOfDicts rows = .ok df) :
    ∀ c ∈ df.cols, c.values = rows.map (cellOf c.name) := by
  unfold lazyFrameOfDicts at h
  obtain ⟨cols, hcols, h2⟩ := ebind_ok h
  cases h2
  intro c hc
  obtain ⟨k, _, hfk⟩ := emapM_ok_mem hcols c hc
  simp only [] at hfk
  cases hd : colDtype (rows.map (cellOf k)) with
  | none => rw [hd] at hfk; exact absurd hfk (by simp)
  | some t =>
    rw [hd] at hfk
    cases hfk
    rfl

lemma structFieldCol_values {c c2 : PCol} {seg : String}
    (h : structFieldCol c seg = .ok c2) : c2.values = c.values.map (cellField seg) := by
  unfold structFieldCol at h
  cases hd : c.dtype with
  | tstruct fs =>
    rw [hd] at h
    simp only [] at h
    cases hl : lookupT seg fs with
    | some t =>
      rw [hl] at h
      cases h
      rfl
    | none => rw [hl] at h; exact absurd h (by simp)
  | tnull => rw [hd] at h; exact absurd h (by simp)
  | tbool => rw [hd] at h; exact absurd h (by simp)
  | tint => rw [hd] at h; exact absurd h (by simp)
  | tfloat => rw [hd] at h; exact absurd h (by simp)
  | tstr => rw [hd] at h; exact absurd h (by simp)
  | tlist => rw [hd] at h; exact absurd h (by simp)

lemma foldPath_values : ∀ (path : List String) (c c2 : PCol),
    foldPath c path = .ok c2 → c2.values = c.values.map (walkCells path)
  | [], c, c2, h => by
    unfold foldPath at h
    cases h
    show c.values = c.values.map (fun v => v)
    rw [List.map_id']
  | seg :: rest, c, c2, h => by
    unfold foldPath at h
    obtain ⟨c1, hc1, h2⟩ := ebind_ok h
    have e1 := structFieldCol_values hc1
    have e2 := foldPath_values rest c1 c2 h2
    rw [e2, e1, List.map_map]
    rfl

lemma getCol_ok {df : DFrame} {n : String} {c : PCol} (h : getCol df n = .ok c) :
    c ∈ df.cols ∧ c.name = n := by
  unfold getCol at h
  cases hf : df.cols.find? (fun x => x.name == n) with
  | none => rw [hf] at h; exact absurd h (by simp)
  | some c0 =>
    rw [hf] at h
    cases h
    have hp : (c.name == n) = true := by
      have := List.find?_some hf
      simpa using this
    exact ⟨List.mem_of_find?_eq_some hf, eq_of_beq hp⟩

lemma to_polars_values {df : DFrame} {fld : DataField} {col : PCol}
    (h : to_polars_expr df fld = .ok col) :
    ∃ c0, getCol df ("layout") = .ok c0 ∧
      col.values = c0.values.map (walkCells (("data") :: fld.path)) ∧
      col.name = fld.«alias» := by
  unfold to_polars_expr at h
  obtain ⟨c0, hc0, h2⟩ := ebind_ok h
  obtain ⟨c1, hc1, h3⟩ := ebind_ok h2
  obtain ⟨c2, hc2, h4⟩ := ebind_ok h3
  cases h4
  refine ⟨c0, hc0, ?_, rfl⟩
  have e1 := structFieldCol_values hc1
  have e2 := foldPath_values fld.path c1 c2 hc2
  show c2.values = _
  rw [e2, e1, List.map_map]
  rfl

lemma walkCells_null : ∀ path, walkCells path JValue.null = JValue.null
  | [] => rfl
  | seg :: rest => by
    show walkCells rest (cellField seg JValue.null) = JValue.null
    exact walkCells_null rest

lemma putCol_subset {cols : List PCol} {c c2 : PCol} (h : c2 ∈ putCol cols c) :
    c2 ∈ cols ∨ c2 = c := by
  unfold putCol at h
  by_cases hany : cols.any (fun x => x.name == c.name) = true
  · rw [if_pos hany] at h
    obtain ⟨x, hx, hfx⟩ := List.mem_map.mp h
    by_cases hxc : (x.name == c.name) = true
    · rw [if_pos hxc] at hfx
      exact Or.inr hfx.symm
    · rw [if_neg hxc] at hfx
      exact Or.inl (hfx ▸ hx)
  · rw [if_neg hany] at h
    rcases List.mem_append.mp h with h1 | h2
    · exact Or.inl h1
    · exact Or.inr (List.mem_singleton.mp h2)

lemma serializeStage_mem {df : DFrame} {c2 : PCol} (h : c2 ∈ (serializeStage df).cols) :
    ∃ c ∈ df.cols, c2 = c ∨ c2.values = c.values.map serializeCell := by
  unfold serializeStage at h
  obtain ⟨c, hc, hfc⟩ := List.mem_map.mp h
  by_cases hcomp : isComplexDtype c.dtype = true
  · rw [if_pos hcomp] at hfc
    exact ⟨c, hc, Or.inr (by rw [← hfc])⟩
  · rw [if_neg hcomp] at hfc
    exact ⟨c, hc, Or.inl hfc.symm⟩

lemma nullAligned_map {raw : List (Option JValue)} {vals : List JValue}
    (h : NullAligned raw vals) {g : JValue → JValue} (hg : g JValue.null = JValue.null) :
    NullAligned raw (vals.map g) := by
  obtain ⟨f, hvals, hnone⟩ := h
  refine ⟨g ∘ f, ?_, ?_⟩
  · rw [hvals, List.map_map]
  · simp [Function.comp, hnone, hg]

lemma selectStage_ok {df sel : DFrame} {schema : List DataField}
    (h : selectStage df schema = .ok sel) :
    ∀ c ∈ sel.cols, ∃ fld ∈ schema, to_polars_expr df fld = .ok c := by
  unfold selectStage at h
  obtain ⟨cols, hcols, h2⟩ := ebind_ok h
  by_cases hdup : hasDupNames (cols.map (·.name)) = true
  · rw [if_pos hdup] at h2
    exact absurd h2 (by simp)
  · rw [if_neg hdup] at h2
    cases h2
    intro c hc
    exact emapM_ok_mem hcols c hc

lemma stage1_nullAligned {raw : List (Option JValue)} {schema : List DataField} {df : DFrame}
    (h : stage_1_polars_transform raw schema = .ok df) :
    ∀ c ∈ df.cols, NullAligned raw c.values := by
  unfold stage_1_polars_transform at h
  obtain ⟨rows, hrows, h2⟩ := ebind_ok h
  obtain ⟨df0, hdf0, h3⟩ := ebind_ok h2
  obtain ⟨sel, hsel, h4⟩ := ebind_ok h3
  obtain ⟨wc, hwc, h5⟩ := ebind_ok h4
  cases h5
  have hrowseq : rows = raw.map rawToRow := emapM_eq_map rawToRow toRow_eq hrows
  have hbase : ∀ c ∈ df0.cols, NullAligned raw c.values := by
    intro c hc
    refine ⟨cellOf c.name ∘ rawToRow, ?_, rfl⟩
    rw [lazyFrame_cols hdf0 c hc, hrowseq, List.map_map]
  have hselcols : ∀ c ∈ sel.cols, NullAligned raw c.values := by
    intro c hc
    obtain ⟨fld, _, hfld⟩ := selectStage_ok hsel c hc
    obtain ⟨c0, hc0, hvals, _⟩ := to_polars_values hfld
    rw [hvals]
    exact nullAligned_map (hbase c0 (getCol_ok hc0).1) (walkCells_null _)
  have hwccols : ∀ c ∈ wc.cols, NullAligned raw c.values := by
    intro c hc
    obtain ⟨bc, dc, hbc, hdc, hout⟩ := withColsStage_ok hwc
    rw [hout] at hc
    rcases putCol_subset hc with hc2 | rfl
    · rcases putCol_subset hc2 with hc3 | rfl
      · exact hselcols c hc3
      · exact nullAligned_map (hselcols bc (getCol_ok hbc).1) rfl
    · exact nullAligned_map (hselcols dc (getCol_ok hdc).1) rfl
  intro c hc
  obtain ⟨c0, hc0, hcase⟩ := serializeStage_mem hc
  rcases hcase with heq | hvals
  · rw [heq]
    exact hwccols c0 hc0
  · rw [hvals]
    exact nullAligned_map (hwccols c0 hc0) rfl

/-- C1 counterexample: on the empty batch the transform does not produce a
zero-row output — the frame has no inferable columns, so resolving
`pl.col("layout")` fails and the whole call raises. -/
theorem C1_counterexample :
    stage_1_polars_transform [] sch1 = .error .colNotFound := by decide

/-- C1 (amended): whenever the extract-then-transform run succeeds, every
output column is a pointwise function of the input batch — exactly one row
per input document, in input order — and a document whose extraction
returned `None` contributes a null cell (an all-missing row) rather than
being dropped.  The success hypothesis is necessary: the transform fails on
batches (such as the empty one) whose frame schema cannot be resolved. -/
theorem C1_row_alignment : ∀ (raw : List (Option JValue)) (schema : List DataField) (df : DFrame),
    stage_1_polars_transform raw schema = .ok df →
    ∀ c ∈ df.cols, c.values.length = raw.length ∧
      ∀ i : Nat, raw.getD i (some JValue.null) = none →
        c.values.getD i (JValue.bool true) = JValue.null := by
  intro raw schema df h c hc
  obtain ⟨f, hvals, hnone⟩ := stage1_nullAligned h c hc
  constructor
  · rw [hvals, List.length_map]
  · intro i hi
    have hgd : raw.getD i (some JValue.null) = (raw.get? i).getD (some JValue.null) := rfl
    rw [hgd] at hi
    cases hq : raw.get? i with
    | none => rw [hq] at hi; exact absurd hi (by simp)
    | some o =>
      rw [hq] at hi
      simp only [Option.getD_some] at hi
      subst hi
      have hv : c.values.get? i = some JValue.null := by
        rw [hvals, List.get?_map, hq]
        simp [hnone]
      show (c.values.get? i).getD (JValue.bool true) = JValue.null
      rw [hv]
      rfl

theorem C1_witness :
    stage_1_polars_transform batch1 sch1 = .ok frame1 ∧
    (⟨"Bounce Rate Percent", .tfloat, [.num (mkRat 85 2), .null]⟩ : PCol).values.length
      = batch1.length ∧
    (⟨"Bounce Rate Percent", .tfloat, [.num (mkRat 85 2), .null]⟩ : PCol).values.getD 1
      (JValue.bool true) = JValue.null := by
  have h1 : stage_1_polars_transform batch1 sch1 = .ok frame1 := by decide
  have hmem : (⟨"Bounce Rate Percent", .tfloat, [.num (mkRat 85 2), .null]⟩ : PCol)
      ∈ frame1.cols := by decide
  have hmain := C1_row_alignment batch1 sch1 frame1 h1 _ hmem
  exact ⟨h1, hmain.1, hmain.2 1 (by decide)⟩

/-- C5 counterexample: a path segment absent from EVERY record of the batch
is absent from the inferred struct dtype, so the projection fails the whole
batch with a struct-field-not-found error rather than producing a missing
value. -/
theorem C5_counterexample :
    (do
      let df ← lazyFrameOfDicts
        [some (JObj.ofList [("layout", jobj [("data", jobj [("y", .int 1)])])])]
      to_polars_expr df ⟨"X", ["x"]⟩) = .error .structFieldNotFound := by decide

/-- C5 (amended): when the projection of a field resolves (the path exists
in the batch-inferred dtype, i.e. in at least one record), it never fails a
row: every row receives the pointwise walk of the path, and a row whose
nested structure lacks an intermediate segment receives null while the rest
of the column is still produced.  A segment absent from every record,
however, fails the batch (see the counterexample). -/
theorem C5_missing_segment :
    ∀ (rows : List (Option JObj)) (df : DFrame) (fld : DataField) (col : PCol),
    lazyFrameOfDicts rows = .ok df → to_polars_expr df fld = .ok col →
    (col.values.length = rows.length ∧
     col.values = rows.map
       (fun r => walkCells (("layout") :: ("data") :: fld.path) (rowVal r))) ∧
    (∀ (k : String) (rest : List String) (kvs : JObj), lookupJ k kvs = none →
      walkCells (k :: rest) (.obj kvs) = .null) := by
  intro rows df fld col hdf hcol
  constructor
  · obtain ⟨c0, hc0, hvals, _⟩ := to_polars_values hcol
    have hbase := lazyFrame_cols hdf c0 (getCol_ok hc0).1
    have hname : c0.name = "layout" := (getCol_ok hc0).2
    rw [hname] at hbase
    constructor
    · rw [hvals, hbase, List.map_map, List.length_map]
    · rw [hvals, hbase, List.map_map]
      apply List.map_congr_left
      intro r _
      cases r <;> rfl
  · intro k rest kvs hk
    show walkCells rest (cellField k (.obj kvs)) = .null
    have he : cellField k (.obj kvs) = .null := by simp [cellField, hk]
    rw [he]
    exact walkCells_null rest

theorem C5_witness :
    lazyFrameOfDicts rows2 = .ok frame2 ∧
    to_polars_expr frame2 ⟨"X", ["x"]⟩ = .ok colX2 ∧
    colX2.values = rows2.map (fun r => walkCells ["layout", "data", "x"] (rowVal r)) ∧
    walkCells ["x"] (.obj (JObj.ofList [("y", .int 2)])) = .null := by
  have h1 : lazyFrameOfDicts rows2 = .ok frame2 := by decide
  have h2 : to_polars_expr frame2 ⟨"X", ["x"]⟩ = .ok colX2 := by decide
  have hmain := C5_missing_segment rows2 frame2 ⟨"X", ["x"]⟩ colX2 h1 h2
  exact ⟨h1, h2, hmain.1.2, hmain.2 "x" [] (JObj.ofList [("y", .int 2)]) (by decide)⟩

end SeoPipeline
